import Mathlib

/-!
# Verification of the benchmark-runner orchestration core

A shallow embedding of the execution-orchestration core of the
`ai-benchmark-runner` repository, together with proofs of the specified
properties.

Conventions of the embedding:

* JavaScript strings are modelled as `String` where only equality and
  concatenation matter (entry names, file names), and as `List Char` where
  the code slices, trims and splits text (`String.prototype.trim`,
  `split('\n')`, `startsWith`, `substring` are re-implemented below over
  `List Char` with JS semantics).
* JavaScript numbers are modelled exactly: integer-valued quantities
  (`score`, `batches`, `completedWaves`, round indices) as `Int`, elapsed
  times as `ℚ`.
* `undefined`-able fields (`error`, `lastVerifiedWave`) are `Option`s;
  the JS `||` fallback on strings (falsy on `undefined` and `""`) is
  modelled explicitly.
* The host's `JSON.parse` is an external platform primitive; code paths
  that feed it are parameterised by an abstract parse function.
* Asynchronous effects (posted worker messages, promise resolutions,
  React `setState`) are modelled by explicit state passing: each embedded
  operation returns the data the real code emits on the corresponding
  channel.
-/

/-! ## JS string primitives over `List Char` -/

/-- JS `String.prototype.trim`: strip leading and trailing whitespace. -/
def jsTrim (s : List Char) : List Char :=
  ((s.dropWhile Char.isWhitespace).reverse.dropWhile Char.isWhitespace).reverse

/-- JS `str.split('\n')`: split on every newline character; adjacent
newlines and boundary newlines produce empty fragments, and the empty
string yields `[""]`, exactly as in JS. -/
def jsSplitLines : List Char → List (List Char)
  | [] => [[]]
  | c :: rest =>
    let r := jsSplitLines rest
    if c = '\n' then [] :: r
    else (c :: r.headD []) :: r.tail

/-- JS `line.substring(line.indexOf(pat) + pat.length)`: the suffix of
`s` after the first occurrence of `pat`.  The callers below only invoke
it when `pat` does occur in `s`; if it does not, this returns `[]`. -/
def jsAfterFirst (pat : List Char) : List Char → List Char
  | [] => []
  | c :: rest =>
    if pat.isPrefixOf (c :: rest) then (c :: rest).drop pat.length
    else jsAfterFirst pat rest

/-! ## Data model (src/types.ts)

`RunResultDetail` is both the per-run result parsed from the sandbox
output and the cumulative leaderboard entry (the source reuses one
interface for both roles). -/

structure RunResultDetail where
  name : String
  model : String
  algorithm : String
  version : String
  batches : Int
  time : ℚ
  verified : Bool
  score : Int
  completedWaves : Int
  lastVerifiedWave : Option Int
  error : Option String
deriving DecidableEq

/-- `ModelProposal` (src/types.ts). -/
structure ModelProposal where
  id : String
  modelName : String
  algorithmName : String
  code : String
  active : Bool
deriving DecidableEq

/-- The full display name used as the leaderboard key:
`` `${proposal.modelName} - ${proposal.algorithmName}` ``
(src/hooks/usePyodide.ts, `runBenchmarkSequence`). -/
def fullNameOf (p : ModelProposal) : String :=
  p.modelName ++ " - " ++ p.algorithmName

/-! ## Leaderboard merge (src/hooks/usePyodide.ts, `updateLeaderboard`) -/

/-- JS `result.error || existing.error`: `undefined` and `""` are falsy,
so the existing error survives unless the new result carries a non-empty
one. -/
def jsOrError (a b : Option String) : Option String :=
  match a with
  | none => b
  | some s => if s = "" then b else some s

/-- The updated entry produced by `updateLeaderboard` when an entry with
the result's name already exists and the idempotence guard did not fire
(the `newLeaderboard[existingIndex] = { ...existing, ... }` literal). -/
def mergeEntry (existing result : RunResultDetail) (waveIndex : Int) : RunResultDetail :=
  { existing with
      batches := existing.batches + result.batches
      score := existing.score + result.score
      time := existing.time + result.time
      verified := existing.verified && result.verified
      completedWaves := existing.completedWaves + (if result.verified then 1 else 0)
      lastVerifiedWave := some waveIndex
      error := jsOrError result.error existing.error }

/-- The entry pushed by `updateLeaderboard` when no entry with the
result's name exists (the `newLeaderboard.push({ ...result, ... })`
literal). -/
def newEntry (result : RunResultDetail) (waveIndex : Int) : RunResultDetail :=
  { result with
      completedWaves := if result.verified then 1 else 0
      lastVerifiedWave := some waveIndex }

/-- `updateLeaderboard(result, waveIndex)` (src/hooks/usePyodide.ts):
`findIndex` locates the first entry whose `name` equals `result.name`;
if found and `lastVerifiedWave === waveIndex` the merge is ignored,
if found otherwise that entry is replaced by `mergeEntry`, and if not
found `newEntry` is pushed at the end.  The `findIndex`/index-assignment/
`push` array manipulation is rendered as structural recursion on the
list, which performs the identical first-match update. -/
def updateLeaderboard : List RunResultDetail → RunResultDetail → Int → List RunResultDetail
  | [], result, w => [newEntry result w]
  | e :: rest, result, w =>
    if e.name = result.name then
      if e.lastVerifiedWave = some w then e :: rest
      else mergeEntry e result w :: rest
    else e :: updateLeaderboard rest result w

/-- Concrete leaderboard entry used by witnesses. -/
def sampleEntry : RunResultDetail :=
  { name := "M - A", model := "M", algorithm := "A", version := ""
    batches := 2, time := 0, verified := true, score := 10
    completedWaves := 1, lastVerifiedWave := some 0, error := none }

/-- Concrete run result used by witnesses. -/
def sampleResult : RunResultDetail :=
  { name := "M - A", model := "M", algorithm := "A", version := ""
    batches := 3, time := 0, verified := true, score := 7
    completedWaves := 0, lastVerifiedWave := none, error := none }

/-! ## Sandbox session teardown (src/hooks/usePyodide.ts, `terminateWorker`)

The hook keeps one resolver ref per outstanding promise kind:
`runResolveRef` (a pending `runCode` promise), `readyResolveRef`
(a pending `initPyodide` promise) and `installResolveRef` (a pending
`installPackages` promise).  `HookState` records whether the worker
object exists, the boolean flags, whether each resolver ref is set, and
the log of values delivered to run-promise resolvers. -/

structure HookState where
  worker : Bool
  isReady : Bool
  isLoading : Bool
  isExecuting : Bool
  isInstalling : Bool
  runPending : Bool
  readyPending : Bool
  installPending : Bool
  runResolved : List Bool
deriving DecidableEq

/-- `terminateWorker` (src/hooks/usePyodide.ts lines 143-156): terminate
and null the worker, clear `isReady` / `isExecuting` / `isInstalling`,
and, if `runResolveRef.current` is set, call it with `false` and clear
it.  `readyResolveRef` and `installResolveRef` are not touched. -/
def terminateWorker (s : HookState) : HookState :=
  let s1 : HookState :=
    { s with worker := false, isReady := false, isExecuting := false, isInstalling := false }
  if s1.runPending then
    { s1 with runPending := false, runResolved := s1.runResolved ++ [false] }
  else s1

/-- A state with the worker alive and one promise of every kind
in flight (e.g. `stopExecution` firing while `installPackages` and an
`initPyodide` from a concurrent restart are outstanding). -/
def hookStateAllPending : HookState :=
  { worker := true, isReady := true, isLoading := false, isExecuting := true
    isInstalling := true, runPending := true, readyPending := true
    installPending := true, runResolved := [] }

/-! ## Worker entry-point selection (src/workers/pyodide.worker.ts, `runCode`) -/

/-- A file shipped to the sandbox worker. -/
structure WorkerFile where
  name : String
  content : String
deriving DecidableEq

/-- `files.find(f => f.name.startsWith('test_'))` predicate. -/
def isTestFile (f : WorkerFile) : Bool :=
  "test_".data.isPrefixOf f.name.data

/-- `files.find(f => f.name === 'main.py')` predicate. -/
def isMainFile (f : WorkerFile) : Bool :=
  f.name = "main.py"

/-- The three execution branches of `runCode`. -/
inductive EntryDispatch
  | runTests (f : WorkerFile)
  | runMain (f : WorkerFile)
  | noEntry
deriving DecidableEq

/-- Entry-point selection of `runCode` (src/workers/pyodide.worker.ts
lines 78-95): the first file whose name starts with `test_` wins,
otherwise the file named `main.py`, otherwise no entry point. -/
def selectEntryPoint (files : List WorkerFile) : EntryDispatch :=
  match files.find? isTestFile with
  | some f => .runTests f
  | none =>
    match files.find? isMainFile with
    | some f => .runMain f
    | none => .noEntry

/-- The message posted on the no-entry-point branch of `runCode`. -/
def noEntryMessage : String :=
  "No entrypoint found (e.g., main.py or test_*.py)"

/-- The `DONE` success flag `runCode` posts without running any user
code: only the no-entry-point branch resolves immediately (with
`false`); the other branches report the outcome of the actual
execution. -/
def immediateDoneFlag : EntryDispatch → Option Bool
  | .noEntry => some false
  | _ => none

/-! ## Stdout/stderr handling (src/workers/pyodide.worker.ts, `initPyodide`)

`setStdout({ batched: stdoutCallback })` feeds whole chunks of stdout
text; `stdoutCallback` trims the chunk, splits on newlines, pulls graph
sentinel lines out to a `GRAPH_DATA` message (the structured channel) and
accumulates the rest into `consoleOutput`, posted as one `OUTPUT`
message.  `setStderr` posts each chunk verbatim plus a newline as
`OUTPUT`.  Payload parsing is the host's `JSON.parse`, abstracted as a
`parse` function into an arbitrary payload type. -/

/-- The graph-data sentinel `'__GRAPH_DATA__:'`. -/
def graphSentinel : List Char :=
  "__GRAPH_DATA__:".data

/-- The diagnostic appended to the console when a sentinel line's
payload fails to parse. -/
def parseErrorNote : List Char :=
  "\n[ERROR] Failed to parse graph data.\n".data

/-- What one chunk-processing call emits: the structured payloads posted
as `GRAPH_DATA` messages and the pieces concatenated (in order) into the
`OUTPUT` text. -/
structure StdoutBatch (α : Type) where
  payloads : List α
  console : List (List Char)
deriving DecidableEq

/-- One iteration of the `for (const line of lines)` loop of
`stdoutCallback`: a sentinel line is parsed and posted (or a parse-error
note is appended on failure), any other line with non-blank trim is
appended with a trailing newline, and blank lines are dropped. -/
def stdoutStep {α : Type} (parse : List Char → Option α) (acc : StdoutBatch α)
    (line : List Char) : StdoutBatch α :=
  if graphSentinel.isPrefixOf line then
    match parse (line.drop graphSentinel.length) with
    | some d => { acc with payloads := acc.payloads ++ [d] }
    | none => { acc with console := acc.console ++ [parseErrorNote] }
  else if jsTrim line = [] then acc
  else { acc with console := acc.console ++ [line ++ ['\n']] }

/-- `stdoutCallback(str)`: `str.trim().split('\n')` processed by the
line loop. -/
def stdoutCallback {α : Type} (parse : List Char → Option α) (chunk : List Char) :
    StdoutBatch α :=
  (jsSplitLines (jsTrim chunk)).foldl (stdoutStep parse) ⟨[], []⟩

/-- The payloads a single line contributes. -/
def stdoutLinePayloads {α : Type} (parse : List Char → Option α) (line : List Char) :
    List α :=
  if graphSentinel.isPrefixOf line then
    match parse (line.drop graphSentinel.length) with
    | some d => [d]
    | none => []
  else []

/-- The console pieces a single line contributes. -/
def stdoutLineConsole {α : Type} (parse : List Char → Option α) (line : List Char) :
    List (List Char) :=
  if graphSentinel.isPrefixOf line then
    match parse (line.drop graphSentinel.length) with
    | some _ => []
    | none => [parseErrorNote]
  else if jsTrim line = [] then []
  else [line ++ ['\n']]

/-- `setStderr({ batched: ... })` of the worker: each stderr chunk is
posted verbatim as `OUTPUT` text plus a trailing newline; no sentinel
scan and no structured channel. -/
def stderrCallback (α : Type) (chunk : List Char) : StdoutBatch α :=
  ⟨[], [chunk ++ ['\n']]⟩

/-! ## Run outcome classification
(src/hooks/usePyodide.ts, `runBenchmarkSequence`, per-proposal body)

The executor records `startOutputLength`, races `runCode` against a
timeout promise (the timer callback sets `timedOut` before resolving
`false`), and classifies: `timedOut` first, then `!success`, then the
sentinel scan over the output slice.  On the two failure branches it
awaits `restartWorker()` (terminate + reinitialize) followed by
reinstalling the requested packages; `restart` records whether that
recovery path runs. -/

/-- The result sentinel `'__BENCHMARK_STEP__:'`. -/
def benchSentinel : List Char :=
  "__BENCHMARK_STEP__:".data

/-- The sentinel scan of the success path: for each line (in order), if
`line.trim().startsWith('__BENCHMARK_STEP__:')` then
`JSON.parse(line.substring(line.indexOf(sentinel) + sentinel.length))`;
the first successful parse wins (`break`), a failed parse logs and keeps
scanning. -/
def findStepResult (parse : List Char → Option RunResultDetail) :
    List (List Char) → Option RunResultDetail
  | [] => none
  | line :: rest =>
    if benchSentinel.isPrefixOf (jsTrim line) then
      match parse (jsAfterFirst benchSentinel line) with
      | some r => some r
      | none => findStepResult parse rest
    else findStepResult parse rest

/-- What the raced execution of one proposal produced: the `timedOut`
flag, the boolean the race resolved with, and
`fullOutputRef.current.slice(startOutputLength)`. -/
structure RunOutcome where
  timedOut : Bool
  success : Bool
  slice : List Char

/-- The merged result together with whether the session-restart recovery
path (`restartWorker` + reinstall) is taken. -/
structure ClassifiedOutcome where
  result : RunResultDetail
  restart : Bool

/-- The literal fallback results built inline on the three failure
branches (`error: "Timeout" | "Runtime Error" | "Output Parsing Failed"`,
with `time` equal to `timeoutSecs` on the timeout branch and `0`
otherwise). -/
def fallbackResult (p : ModelProposal) (err : String) (t : ℚ) : RunResultDetail :=
  { name := fullNameOf p, model := p.modelName, algorithm := p.algorithmName
    version := "", batches := 0, time := t, verified := false, score := 0
    completedWaves := 0, lastVerifiedWave := none, error := some err }

/-- Outcome classification, in source order: `if (timedOut) ... else if
(!success) ... else` scan `runOutput.split('\n')` for the sentinel. -/
def classifyRun (parse : List Char → Option RunResultDetail) (timeoutSecs : ℚ)
    (p : ModelProposal) (o : RunOutcome) : ClassifiedOutcome :=
  if o.timedOut then ⟨fallbackResult p "Timeout" timeoutSecs, true⟩
  else if o.success = false then ⟨fallbackResult p "Runtime Error" 0, true⟩
  else
    match findStepResult parse (jsSplitLines o.slice) with
    | some r => ⟨r, false⟩
    | none => ⟨fallbackResult p "Output Parsing Failed" 0, false⟩

/-- Concrete proposal used by witnesses. -/
def sampleProposal : ModelProposal :=
  { id := "1", modelName := "M", algorithmName := "A", code := "", active := true }

/-! ## Ranking (src/components, `RankingTable`)

`[...results].sort(comparator)` with the comparator of `RankingTable`:
failures always compare after verified entries, then the selected
field's values are compared (returning 0 when either is `undefined`),
ascending or descending.  ECMA-262 requires `Array.prototype.sort` to be
stable, and for a consistent comparator the stable sorted order is
unique, so the sort is modelled by a stable insertion sort over the
comparator's `≤ 0` relation.  The field accessor is modelled as a
function into `Option α` for a linearly ordered `α` (`undefined` =
`none`). -/

/-- The `RankingTable` comparator, returning the JS comparator's
`1 / -1 / 0`. -/
def rowCompare {α : Type} [LinearOrder α] (v : RunResultDetail → Option α)
    (asc : Bool) (a b : RunResultDetail) : Int :=
  if !a.verified && b.verified then 1
  else if a.verified && !b.verified then -1
  else
    match v a, v b with
    | some x, some y =>
      if x < y then (if asc then -1 else 1)
      else if y < x then (if asc then 1 else -1)
      else 0
    | _, _ => 0

/-- Stable insertion of `x` into `l`: `x` is placed before the first
element `y` it need not follow (`le x y`), so earlier elements precede
comparator-equal later ones. -/
def insertSorted {α : Type} (le : α → α → Bool) (x : α) : List α → List α
  | [] => [x]
  | y :: ys => if le x y then x :: y :: ys else y :: insertSorted le x ys

/-- Stable insertion sort (the unique stable sort for a consistent
comparator, hence the result of `Array.prototype.sort`). -/
def stableSort {α : Type} (le : α → α → Bool) : List α → List α
  | [] => []
  | x :: xs => insertSorted le x (stableSort le xs)

/-- The sorted view `sortedResults` of `RankingTable` for a field
accessor `v` and direction `asc`. -/
def rankingSort {α : Type} [LinearOrder α] (v : RunResultDetail → Option α)
    (asc : Bool) (rs : List RunResultDetail) : List RunResultDetail :=
  stableSort (fun a b => decide (rowCompare v asc a b ≤ 0)) rs

/-- The default sort of `RankingTable`: `useState` initialises
`sortField = 'score'` and `sortAsc = true` (ascending cumulative
token cost). -/
def defaultRanking (rs : List RunResultDetail) : List RunResultDetail :=
  rankingSort (fun e => some e.score) true rs

/-- Verified entry with cumulative score 100 (from the spec's ranking
example). -/
def entryV100 : RunResultDetail :=
  { name := "P - a", model := "P", algorithm := "a", version := ""
    batches := 0, time := 0, verified := true, score := 100
    completedWaves := 1, lastVerifiedWave := some 0, error := none }

/-- Verified entry with cumulative score 50. -/
def entryV50 : RunResultDetail :=
  { name := "Q - b", model := "Q", algorithm := "b", version := ""
    batches := 0, time := 0, verified := true, score := 50
    completedWaves := 1, lastVerifiedWave := some 0, error := none }

/-- Failed entry with cumulative score 999. -/
def entryF999 : RunResultDetail :=
  { name := "R - c", model := "R", algorithm := "c", version := ""
    batches := 0, time := 0, verified := false, score := 999
    completedWaves := 0, lastVerifiedWave := some 0, error := some "Runtime Error" }

/-! ## Wave sequencer (src/hooks/usePyodide.ts, `runBenchmarkSequence`)

One round iterates `proposals.filter(p => p.active)`.  Each iteration
first checks `isPlayingRef.current` (modelled by a list of booleans, one
per iteration, defaulting to `true`), then the disqualification check
`leaderboard.find(l => l.name === fullName)` — note that `leaderboard`
is the React state captured by the closure when the round started, so
the check always reads the round's *initial* leaderboard `lb0`, while
the functional `setLeaderboard` updates (placeholder insertion and
`updateLeaderboard`) apply to the evolving list.  The per-proposal
execution outcome is supplied by `env.outcome` (the sandbox is
external), classified by `classifyRun`, and merged with the captured
round index `env.wave`. -/

/-- `leaderboard.find(l => l.name === n)`. -/
def findEntry (lb : List RunResultDetail) (n : String) : Option RunResultDetail :=
  lb.find? (fun x => x.name = n)

/-- The optimistic placeholder pushed before a proposal's first run
(`setLeaderboard(prev => ...)` in `runBenchmarkSequence`). -/
def placeholderEntry (p : ModelProposal) : RunResultDetail :=
  { name := fullNameOf p, model := p.modelName, algorithm := p.algorithmName
    version := "", batches := 0, time := 0, verified := true, score := 0
    completedWaves := 0, lastVerifiedWave := some (-1), error := none }

/-- Push the placeholder unless an entry with the proposal's full name
already exists (`if (prev.some(p => p.name === fullName)) return prev`). -/
def ensureEntry (lb : List RunResultDetail) (p : ModelProposal) : List RunResultDetail :=
  if lb.any (fun x => x.name = fullNameOf p) then lb
  else lb ++ [placeholderEntry p]

/-- The skip test `existingEntry && !existingEntry.verified`. -/
def isDisqualifiedIn (lb : List RunResultDetail) (n : String) : Bool :=
  match findEntry lb n with
  | some e => !e.verified
  | none => false

/-- Everything one round of the sequencer consumes from its environment:
the host JSON parse, the timeout budget, the sandbox behaviour per
proposal, and the captured round index. -/
structure RoundEnv where
  parse : List Char → Option RunResultDetail
  timeoutSecs : ℚ
  outcome : ModelProposal → RunOutcome
  wave : Int

/-- The `for (const proposal of activeProposals)` loop.  `lb0` is the
round's captured leaderboard (read by the disqualification check), `lb`
the evolving one, `flags` the successive values of `isPlayingRef`
(`false` breaks the loop), `ex` the names executed so far.  Returns the
final leaderboard and the executed names. -/
def runRoundAux (env : RoundEnv) (lb0 : List RunResultDetail) :
    List ModelProposal → List Bool → List RunResultDetail → List String →
      List RunResultDetail × List String
  | [], _, lb, ex => (lb, ex)
  | p :: ps, flags, lb, ex =>
    if flags.headD true = false then (lb, ex)
    else if isDisqualifiedIn lb0 (fullNameOf p) then
      runRoundAux env lb0 ps flags.tail lb ex
    else
      runRoundAux env lb0 ps flags.tail
        (updateLeaderboard (ensureEntry lb p)
          (classifyRun env.parse env.timeoutSecs p (env.outcome p)).result env.wave)
        (ex ++ [fullNameOf p])

/-- One full round over the active proposals, starting from (and
checking disqualification against) the captured leaderboard `lb0`. -/
def runRound (env : RoundEnv) (lb0 : List RunResultDetail)
    (proposals : List ModelProposal) (flags : List Bool) :
    List RunResultDetail × List String :=
  runRoundAux env lb0 (proposals.filter (fun p => p.active)) flags lb0 []

/-- A sequence of rounds: each round captures the leaderboard the
previous round produced.  Returns the final leaderboard and the
per-round executed-name lists. -/
def runRounds :
    List RunResultDetail → List (RoundEnv × List ModelProposal × List Bool) →
      List RunResultDetail × List (List String)
  | lb, [] => (lb, [])
  | lb, s :: rest =>
    let r1 := runRound s.1 lb s.2.1 s.2.2
    let r2 := runRounds r1.1 rest
    (r2.1, r1.2 :: r2.2)

/-- Entry with the disqualified state used by the C3 witness. -/
def disqEntry : RunResultDetail :=
  { name := "M - A", model := "M", algorithm := "A", version := ""
    batches := 4, time := 0, verified := false, score := 12
    completedWaves := 2, lastVerifiedWave := some 1, error := some "Timeout" }

/-- Round environment used by witnesses: every run crashes
(`success = false`), so every classified result is the Runtime Error
fallback whose name is the executing proposal's full name. -/
def sampleEnv : RoundEnv :=
  { parse := fun _ => none, timeoutSecs := 5
    outcome := fun _ => ⟨false, false, []⟩, wave := 3 }

/-- A second active proposal (name `"N - B"`) for the C3 witness. -/
def otherProposal : ModelProposal :=
  { id := "2", modelName := "N", algorithmName := "B", code := "", active := true }

/-! ## Verified properties -/

/-- C2: merging the same result with the same round index twice changes
the leaderboard exactly as merging it once: the first merge stamps
`lastVerifiedWave := waveIndex` on the entry it touches (or creates), so
the second call is absorbed by the `lastVerifiedWave === waveIndex`
guard and leaves the state unchanged. -/
theorem C2_merge_idempotent_per_round (lb : List RunResultDetail) (r : RunResultDetail) (w : Int) :
    updateLeaderboard (updateLeaderboard lb r w) r w = updateLeaderboard lb r w := by
  induction lb with
  | nil =>
      simp [updateLeaderboard, newEntry]
  | cons e rest ih =>
      by_cases hname : e.name = r.name
      · by_cases hguard : e.lastVerifiedWave = some w
        · simp [updateLeaderboard, hname, hguard]
        · simp [updateLeaderboard, hname, hguard, mergeEntry]
      · simp [updateLeaderboard, hname, ih]

/-- C6: accumulation semantics of the leaderboard merge.  For the first
existing entry with the result's name (all entries before it have other
names) whose `lastVerifiedWave` differs from the round index, the merge
adds `result.batches` / `result.score` / `result.time` to the cumulative
fields, ANDs the `verified` flags, increments `completedWaves` iff the
result is verified, overwrites `error` only when the result carries a
(non-empty) one, and stamps `lastVerifiedWave := waveIndex`.  When no
entry carries the result's name a new entry is pushed with
`completedWaves = (verified ? 1 : 0)` and `lastVerifiedWave = waveIndex`. -/
theorem C6_merge_accumulation (pre rest lbNew : List RunResultDetail)
    (e r : RunResultDetail) (w : Int)
    (hpre : ∀ x ∈ pre, x.name ≠ r.name)
    (hname : e.name = r.name)
    (hguard : e.lastVerifiedWave ≠ some w)
    (hnew : ∀ x ∈ lbNew, x.name ≠ r.name) :
    (updateLeaderboard (pre ++ e :: rest) r w =
      pre ++
        { e with
            batches := e.batches + r.batches
            score := e.score + r.score
            time := e.time + r.time
            verified := e.verified && r.verified
            completedWaves := e.completedWaves + (if r.verified then 1 else 0)
            lastVerifiedWave := some w
            error := jsOrError r.error e.error } :: rest)
    ∧ (updateLeaderboard lbNew r w =
        lbNew ++
          [{ r with
              completedWaves := if r.verified then 1 else 0
              lastVerifiedWave := some w }])
    ∧ (r.error = none → jsOrError r.error e.error = e.error) := by
  refine ⟨?_, ?_, ?_⟩
  · induction pre with
    | nil => simp [updateLeaderboard, hname, hguard, mergeEntry]
    | cons x xs ih =>
        have hx : x.name ≠ r.name := hpre x (by simp)
        have hxs : ∀ y ∈ xs, y.name ≠ r.name := fun y hy => hpre y (by simp [hy])
        simpa [updateLeaderboard, hx] using ih hxs
  · induction lbNew with
    | nil => simp [updateLeaderboard, newEntry]
    | cons x xs ih =>
        have hx : x.name ≠ r.name := hnew x (by simp)
        have hxs : ∀ y ∈ xs, y.name ≠ r.name := fun y hy => hnew y (by simp [hy])
        simpa [updateLeaderboard, hx] using ih hxs
  · intro h
    simp [jsOrError, h]

/-- Witness for C6 at a concrete leaderboard, result and round index. -/
theorem C6_merge_accumulation_witness :
    (updateLeaderboard ([] ++ sampleEntry :: []) sampleResult 1 =
      [] ++
        { sampleEntry with
            batches := sampleEntry.batches + sampleResult.batches
            score := sampleEntry.score + sampleResult.score
            time := sampleEntry.time + sampleResult.time
            verified := sampleEntry.verified && sampleResult.verified
            completedWaves :=
              sampleEntry.completedWaves + (if sampleResult.verified then 1 else 0)
            lastVerifiedWave := some 1
            error := jsOrError sampleResult.error sampleEntry.error } :: [])
    ∧ (updateLeaderboard [] sampleResult 1 =
        [] ++
          [{ sampleResult with
              completedWaves := if sampleResult.verified then 1 else 0
              lastVerifiedWave := some 1 }])
    ∧ (sampleResult.error = none →
        jsOrError sampleResult.error sampleEntry.error = sampleEntry.error) :=
  C6_merge_accumulation [] [] [] sampleEntry sampleResult 1
    (by simp) (by decide) (by decide) (by simp)

/-- C4: evaluating `terminateWorker` on a state with a run, an install
and an initialize promise all outstanding: the run promise is resolved
with `false` and a second `terminate` is a no-op, but the install and
initialize promises are left pending (their resolver refs are never
called or cleared), contradicting the claim that terminate settles every
in-flight response expectation. -/
theorem C4_terminate_leaves_install_and_init_pending :
    (terminateWorker hookStateAllPending).runPending = false
    ∧ (terminateWorker hookStateAllPending).runResolved = [false]
    ∧ (terminateWorker hookStateAllPending).installPending = true
    ∧ (terminateWorker hookStateAllPending).readyPending = true
    ∧ terminateWorker (terminateWorker hookStateAllPending) =
        terminateWorker hookStateAllPending := by
  decide

/-- C5: entry-point selection policy of `runFiles`.  If some supplied
file name starts with `test_`, the first such file is run as a test
invocation (and its name does start with `test_`); otherwise, if a file
named `main.py` is present, it is run as the main program; otherwise the
run dispatches to the no-entry-point branch, which emits the
"no entry point" message and resolves `false`. -/
theorem C5_entry_point_selection (files : List WorkerFile) :
    (∀ f, files.find? isTestFile = some f →
      selectEntryPoint files = .runTests f ∧ "test_".data.isPrefixOf f.name.data = true)
    ∧ (files.find? isTestFile = none →
        ∀ f, files.find? isMainFile = some f →
          selectEntryPoint files = .runMain f ∧ f.name = "main.py")
    ∧ (files.find? isTestFile = none → files.find? isMainFile = none →
        selectEntryPoint files = .noEntry
        ∧ immediateDoneFlag (selectEntryPoint files) = some false) := by
  refine ⟨?_, ?_, ?_⟩
  · intro f hf
    refine ⟨by simp [selectEntryPoint, hf], ?_⟩
    simpa [isTestFile] using List.find?_some hf
  · intro ht f hf
    refine ⟨by simp [selectEntryPoint, ht, hf], ?_⟩
    have := List.find?_some hf
    simpa [isMainFile] using this
  · intro ht hm
    simp [selectEntryPoint, ht, hm, immediateDoneFlag]

/-- Witness for C5: the three branches at concrete file lists. -/
theorem C5_entry_point_selection_witness :
    (selectEntryPoint [⟨"main.py", "m"⟩, ⟨"test_x.py", "t"⟩] =
        .runTests ⟨"test_x.py", "t"⟩)
    ∧ (selectEntryPoint [⟨"util.py", "u"⟩, ⟨"main.py", "m"⟩] =
        .runMain ⟨"main.py", "m"⟩)
    ∧ selectEntryPoint [⟨"util.py", "u"⟩] = .noEntry :=
  ⟨((C5_entry_point_selection [⟨"main.py", "m"⟩, ⟨"test_x.py", "t"⟩]).1
      ⟨"test_x.py", "t"⟩ (by decide)).1,
   (((C5_entry_point_selection [⟨"util.py", "u"⟩, ⟨"main.py", "m"⟩]).2.1
      (by decide) ⟨"main.py", "m"⟩ (by decide))).1,
   ((C5_entry_point_selection [⟨"util.py", "u"⟩]).2.2 (by decide) (by decide)).1⟩

theorem stdoutStep_eq {α : Type} (parse : List Char → Option α) (acc : StdoutBatch α)
    (line : List Char) :
    stdoutStep parse acc line =
      ⟨acc.payloads ++ stdoutLinePayloads parse line,
       acc.console ++ stdoutLineConsole parse line⟩ := by
  unfold stdoutStep stdoutLinePayloads stdoutLineConsole
  by_cases hp : graphSentinel.isPrefixOf line
  · cases hparse : parse (line.drop graphSentinel.length) <;> simp [hp, hparse]
  · by_cases ht : jsTrim line = [] <;> simp [hp, ht]

theorem stdout_foldl_eq {α : Type} (parse : List Char → Option α) :
    ∀ (ls : List (List Char)) (acc : StdoutBatch α),
      ls.foldl (stdoutStep parse) acc =
        ⟨acc.payloads ++ (ls.map (stdoutLinePayloads parse)).flatten,
         acc.console ++ (ls.map (stdoutLineConsole parse)).flatten⟩ := by
  intro ls
  induction ls with
  | nil => intro acc; simp
  | cons l ls ih =>
      intro acc
      simp only [List.foldl_cons, ih, stdoutStep_eq, List.map_cons, List.flatten_cons,
        List.append_assoc]

/-- C8 (counterexample): the claim as stated fails on the chunk
`"__GRAPH_DATA__:oops\n \nhello"` with a payload parse that rejects
`"oops"` (as `JSON.parse` does): the sentinel line is present but no
structured payload is delivered (an error note is appended instead), and
the line `" "` is non-empty and not a sentinel line yet is not appended
to the textual buffer (the code drops lines that are blank after
trimming). -/
theorem C8_sentinel_extraction_counterexample :
    ("__GRAPH_DATA__:oops".data ∈ jsSplitLines (jsTrim "__GRAPH_DATA__:oops\n \nhello".data)
      ∧ graphSentinel.isPrefixOf "__GRAPH_DATA__:oops".data = true
      ∧ (stdoutCallback (fun _ => (none : Option Unit))
          "__GRAPH_DATA__:oops\n \nhello".data).payloads = [])
    ∧ (" ".data ∈ jsSplitLines (jsTrim "__GRAPH_DATA__:oops\n \nhello".data)
      ∧ graphSentinel.isPrefixOf " ".data = false
      ∧ " ".data ≠ []
      ∧ (" ".data ++ ['\n']) ∉
          (stdoutCallback (fun _ => (none : Option Unit))
            "__GRAPH_DATA__:oops\n \nhello".data).console) := by
  decide

/-- C8 (amended): exact behaviour of stdout sentinel extraction.  The
console output is precisely the per-line contributions, in order: a
sentinel line contributes nothing when its payload parses and the fixed
parse-error note when it does not, a non-sentinel line with non-blank
trim contributes itself plus a trailing newline, and blank lines
contribute nothing; dually the structured channel carries precisely the
successfully parsed sentinel payloads, in order.  Consequently, per
line: a sentinel line is never appended to the textual buffer, its
payload is delivered on the structured channel when it parses, and the
parse-error note is appended when it does not; a non-sentinel line with
non-blank trim is appended with a trailing newline; and every delivered
payload stems from a successfully parsed sentinel line (so a failing
sentinel line delivers nothing). -/
theorem C8_sentinel_extraction_amended {α : Type} (parse : List Char → Option α)
    (chunk : List Char) :
    ((stdoutCallback parse chunk).console =
      ((jsSplitLines (jsTrim chunk)).map (fun l =>
        if graphSentinel.isPrefixOf l then
          match parse (l.drop graphSentinel.length) with
          | some _ => []
          | none => [parseErrorNote]
        else if jsTrim l = [] then [] else [l ++ ['\n']])).flatten)
    ∧ ((stdoutCallback parse chunk).payloads =
      ((jsSplitLines (jsTrim chunk)).map (fun l =>
        if graphSentinel.isPrefixOf l then
          match parse (l.drop graphSentinel.length) with
          | some d => [d]
          | none => []
        else [])).flatten)
    ∧ (∀ line ∈ jsSplitLines (jsTrim chunk),
        (graphSentinel.isPrefixOf line = true →
          (line ++ ['\n']) ∉ (stdoutCallback parse chunk).console
          ∧ (∀ d, parse (line.drop graphSentinel.length) = some d →
              d ∈ (stdoutCallback parse chunk).payloads)
          ∧ (parse (line.drop graphSentinel.length) = none →
              parseErrorNote ∈ (stdoutCallback parse chunk).console))
        ∧ (graphSentinel.isPrefixOf line = false → jsTrim line ≠ [] →
            (line ++ ['\n']) ∈ (stdoutCallback parse chunk).console))
    ∧ (∀ d ∈ (stdoutCallback parse chunk).payloads,
        ∃ l ∈ jsSplitLines (jsTrim chunk),
          graphSentinel.isPrefixOf l = true
          ∧ parse (l.drop graphSentinel.length) = some d) := by
  have hcb : stdoutCallback parse chunk =
      ⟨((jsSplitLines (jsTrim chunk)).map (stdoutLinePayloads parse)).flatten,
       ((jsSplitLines (jsTrim chunk)).map (stdoutLineConsole parse)).flatten⟩ := by
    have := stdout_foldl_eq parse (jsSplitLines (jsTrim chunk)) ⟨[], []⟩
    simpa [stdoutCallback] using this
  refine ⟨?_, ?_, ?_, ?_⟩
  · rw [hcb]
    rfl
  · rw [hcb]
    rfl
  · intro line hline
    refine ⟨?_, ?_⟩
    · intro hp
      refine ⟨?_, ?_, ?_⟩
      · rw [hcb]
        intro hmem
        simp only [List.mem_flatten, List.mem_map] at hmem
        obtain ⟨piece, ⟨l, hl, rfl⟩, hx⟩ := hmem
        obtain ⟨t, ht⟩ := List.isPrefixOf_iff_prefix.mp hp
        unfold stdoutLineConsole at hx
        by_cases hpl : graphSentinel.isPrefixOf l
        · cases hparse : parse (l.drop graphSentinel.length) <;>
            simp [hpl, hparse] at hx
          rw [← ht] at hx
          have h4 : some '_' = some '\n' := congrArg List.head? hx
          simp at h4
        · by_cases htr : jsTrim l = []
          · simp [hpl, htr] at hx
          · simp [hpl, htr] at hx
            exact hpl (hx ▸ hp)
      · intro d hd
        rw [hcb]
        simp only [List.mem_flatten, List.mem_map]
        exact ⟨stdoutLinePayloads parse line, ⟨line, hline, rfl⟩,
          by simp [stdoutLinePayloads, hp, hd]⟩
      · intro hnone
        rw [hcb]
        simp only [List.mem_flatten, List.mem_map]
        exact ⟨stdoutLineConsole parse line, ⟨line, hline, rfl⟩,
          by simp [stdoutLineConsole, hp, hnone]⟩
    · intro hp ht
      rw [hcb]
      simp only [List.mem_flatten, List.mem_map]
      exact ⟨stdoutLineConsole parse line, ⟨line, hline, rfl⟩,
        by simp [stdoutLineConsole, hp, ht]⟩
  · intro d hd
    rw [hcb] at hd
    simp only [List.mem_flatten, List.mem_map] at hd
    obtain ⟨piece, ⟨l, hl, rfl⟩, hx⟩ := hd
    unfold stdoutLinePayloads at hx
    by_cases hpl : graphSentinel.isPrefixOf l
    · cases hparse : parse (l.drop graphSentinel.length) with
      | some d2 =>
          simp [hpl, hparse] at hx
          exact ⟨l, hl, by simp [hpl], by rw [hparse, hx]⟩
      | none => simp [hpl, hparse] at hx
    · simp [hpl] at hx

/-- Witness for the amended C8 on a concrete chunk: with a parse that
succeeds, the non-blank line `"hello"` is appended and the sentinel
payload is delivered; with a parse that fails, the parse-error note is
appended and the sentinel line itself still never reaches the console. -/
theorem C8_sentinel_extraction_amended_witness :
    ("hello".data ++ ['\n']) ∈
      (stdoutCallback (fun s => (some s : Option (List Char)))
        "__GRAPH_DATA__:oops\n \nhello".data).console
    ∧ "oops".data ∈
        (stdoutCallback (fun s => (some s : Option (List Char)))
          "__GRAPH_DATA__:oops\n \nhello".data).payloads
    ∧ parseErrorNote ∈
        (stdoutCallback (fun _ => (none : Option (List Char)))
          "__GRAPH_DATA__:oops\n \nhello".data).console
    ∧ ("__GRAPH_DATA__:oops".data ++ ['\n']) ∉
        (stdoutCallback (fun _ => (none : Option (List Char)))
          "__GRAPH_DATA__:oops\n \nhello".data).console := by
  refine ⟨?_, ?_, ?_, ?_⟩
  · exact ((C8_sentinel_extraction_amended (fun s => (some s : Option (List Char)))
      "__GRAPH_DATA__:oops\n \nhello".data).2.2.1 "hello".data (by decide)).2
      (by decide) (by decide)
  · exact (((C8_sentinel_extraction_amended (fun s => (some s : Option (List Char)))
      "__GRAPH_DATA__:oops\n \nhello".data).2.2.1 "__GRAPH_DATA__:oops".data
      (by decide)).1 (by decide)).2.1 "oops".data (by decide)
  · exact (((C8_sentinel_extraction_amended (fun _ => (none : Option (List Char)))
      "__GRAPH_DATA__:oops\n \nhello".data).2.2.1 "__GRAPH_DATA__:oops".data
      (by decide)).1 (by decide)).2.2 (by decide)
  · exact (((C8_sentinel_extraction_amended (fun _ => (none : Option (List Char)))
      "__GRAPH_DATA__:oops\n \nhello".data).2.2.1 "__GRAPH_DATA__:oops".data
      (by decide)).1 (by decide)).1

/-- C10: stderr bypasses sentinel extraction entirely — every stderr
chunk is appended to the textual output verbatim (plus a trailing
newline) and delivers no structured payload; in particular a stderr
chunk beginning with the graph sentinel appears in the console text. -/
theorem C10_stderr_verbatim (α : Type) (chunk : List Char) :
    (stderrCallback α chunk).payloads = []
    ∧ (stderrCallback α chunk).console = [chunk ++ ['\n']]
    ∧ (graphSentinel.isPrefixOf chunk = true →
        (chunk ++ ['\n']) ∈ (stderrCallback α chunk).console) := by
  refine ⟨rfl, rfl, ?_⟩
  intro _
  simp [stderrCallback]

/-- Witness for C10 at a sentinel-prefixed stderr chunk. -/
theorem C10_stderr_verbatim_witness :
    ("__GRAPH_DATA__:oops".data ++ ['\n']) ∈
      (stderrCallback Unit "__GRAPH_DATA__:oops".data).console :=
  (C10_stderr_verbatim Unit "__GRAPH_DATA__:oops".data).2.2 (by decide)

theorem findStepResult_eq_none (parse : List Char → Option RunResultDetail)
    (ls : List (List Char))
    (h : ∀ line ∈ ls, benchSentinel.isPrefixOf (jsTrim line) = false) :
    findStepResult parse ls = none := by
  induction ls with
  | nil => rfl
  | cons l ls ih =>
      have hl : benchSentinel.isPrefixOf (jsTrim l) = false := h l (by simp)
      have hls := ih fun x hx => h x (by simp [hx])
      simp [findStepResult, hl, hls]

/-- C1: classification of an executed proposal, in order.  If the
timeout fired, the merged result has `verified = false`, `score = 0`,
`error = "Timeout"` and the full session restart is performed; if the
run resolved `false`, the result is the same with `error =
"Runtime Error"` and the restart is performed; if the run resolved
`true` but no line of the output slice starts (after trimming) with the
result sentinel, the result carries `error = "Output Parsing Failed"`
and no restart is performed. -/
theorem C1_outcome_classification (parse : List Char → Option RunResultDetail)
    (timeoutSecs : ℚ) (p : ModelProposal) (o : RunOutcome) :
    (o.timedOut = true →
      (classifyRun parse timeoutSecs p o).result.verified = false
      ∧ (classifyRun parse timeoutSecs p o).result.score = 0
      ∧ (classifyRun parse timeoutSecs p o).result.error = some "Timeout"
      ∧ (classifyRun parse timeoutSecs p o).restart = true)
    ∧ (o.timedOut = false → o.success = false →
        (classifyRun parse timeoutSecs p o).result.verified = false
        ∧ (classifyRun parse timeoutSecs p o).result.score = 0
        ∧ (classifyRun parse timeoutSecs p o).result.error = some "Runtime Error"
        ∧ (classifyRun parse timeoutSecs p o).restart = true)
    ∧ (o.timedOut = false → o.success = true →
        (∀ line ∈ jsSplitLines o.slice,
          benchSentinel.isPrefixOf (jsTrim line) = false) →
        (classifyRun parse timeoutSecs p o).result.verified = false
        ∧ (classifyRun parse timeoutSecs p o).result.score = 0
        ∧ (classifyRun parse timeoutSecs p o).result.error = some "Output Parsing Failed"
        ∧ (classifyRun parse timeoutSecs p o).restart = false) := by
  refine ⟨?_, ?_, ?_⟩
  · intro ht
    simp [classifyRun, ht, fallbackResult]
  · intro ht hs
    simp [classifyRun, ht, hs, fallbackResult]
  · intro ht hs hnone
    have hfind := findStepResult_eq_none parse (jsSplitLines o.slice) hnone
    simp [classifyRun, ht, hs, hfind, fallbackResult]

/-- Witness for C1: the three branches at concrete outcomes (a timeout,
a crash, and a clean exit whose output slice has no sentinel line). -/
theorem C1_outcome_classification_witness :
    ((classifyRun (fun _ => none) 5 sampleProposal ⟨true, false, []⟩).result.error
        = some "Timeout"
      ∧ (classifyRun (fun _ => none) 5 sampleProposal ⟨true, false, []⟩).restart = true)
    ∧ ((classifyRun (fun _ => none) 5 sampleProposal ⟨false, false, []⟩).result.error
        = some "Runtime Error"
      ∧ (classifyRun (fun _ => none) 5 sampleProposal ⟨false, false, []⟩).restart = true)
    ∧ ((classifyRun (fun _ => none) 5 sampleProposal
          ⟨false, true, "hello\nworld".data⟩).result.error = some "Output Parsing Failed"
      ∧ (classifyRun (fun _ => none) 5 sampleProposal
          ⟨false, true, "hello\nworld".data⟩).restart = false) :=
  ⟨⟨((C1_outcome_classification (fun _ => none) 5 sampleProposal ⟨true, false, []⟩).1
      rfl).2.2.1,
    ((C1_outcome_classification (fun _ => none) 5 sampleProposal ⟨true, false, []⟩).1
      rfl).2.2.2⟩,
   ⟨((C1_outcome_classification (fun _ => none) 5 sampleProposal ⟨false, false, []⟩).2.1
      rfl rfl).2.2.1,
    ((C1_outcome_classification (fun _ => none) 5 sampleProposal ⟨false, false, []⟩).2.1
      rfl rfl).2.2.2⟩,
   ⟨((C1_outcome_classification (fun _ => none) 5 sampleProposal
        ⟨false, true, "hello\nworld".data⟩).2.2 rfl rfl (by decide)).2.2.1,
    ((C1_outcome_classification (fun _ => none) 5 sampleProposal
        ⟨false, true, "hello\nworld".data⟩).2.2 rfl rfl (by decide)).2.2.2⟩⟩

theorem mem_insertSorted {α : Type} (le : α → α → Bool) (x w : α) (l : List α) :
    w ∈ insertSorted le x l ↔ w = x ∨ w ∈ l := by
  induction l with
  | nil => simp [insertSorted]
  | cons y ys ih =>
      by_cases h : le x y
      · simp [insertSorted, h]
      · simp [insertSorted, h, ih]
        tauto

theorem insertSorted_pairwise {α : Type} (le : α → α → Bool) (S : α → α → Prop)
    (hTrans : ∀ a b c, S a b → S b c → S a c)
    (h1 : ∀ a b, le a b = true → S a b)
    (h2 : ∀ a b, le a b = false → S b a)
    (x : α) (l : List α) (hl : l.Pairwise S) :
    (insertSorted le x l).Pairwise S := by
  induction l with
  | nil => simp [insertSorted]
  | cons y ys ih =>
      rcases List.pairwise_cons.mp hl with ⟨hy, hys⟩
      by_cases h : le x y
      · have hrw : insertSorted le x (y :: ys) = x :: y :: ys := by
          simp [insertSorted, h]
        rw [hrw]
        refine List.pairwise_cons.mpr ⟨?_, hl⟩
        intro z hz
        rcases List.mem_cons.mp hz with rfl | hz
        · exact h1 x z h
        · exact hTrans x y z (h1 x y h) (hy z hz)
      · have hrw : insertSorted le x (y :: ys) = y :: insertSorted le x ys := by
          simp [insertSorted, h]
        rw [hrw]
        refine List.pairwise_cons.mpr ⟨?_, ih hys⟩
        intro z hz
        rcases (mem_insertSorted le x z ys).mp hz with rfl | hz
        · exact h2 z y (by simpa using h)
        · exact hy z hz

/-- C7: for every field accessor and direction, the ranking sort places
every `verified == false` entry after every `verified == true` entry (no
verified entry ever follows an unverified one), and the default
ascending-score sort maps the spec's example
`[score 100 verified, score 50 verified, score 999 failed]` to
`[50, 100, failed]`. -/
theorem C7_ranking_order :
    (∀ (α : Type) (inst : LinearOrder α) (v : RunResultDetail → Option α)
        (asc : Bool) (rs : List RunResultDetail),
        (@rankingSort α inst v asc rs).Pairwise
          (fun a b => b.verified = true → a.verified = true))
    ∧ defaultRanking [entryV100, entryV50, entryF999] =
        [entryV50, entryV100, entryF999] := by
  constructor
  · intro α inst v asc rs
    have h1 : ∀ a b : RunResultDetail,
        decide (rowCompare v asc a b ≤ 0) = true →
          (b.verified = true → a.verified = true) := by
      intro a b h hb
      by_contra ha
      have haf : a.verified = false := by
        cases hav : a.verified
        · rfl
        · exact absurd hav ha
      have hc : rowCompare v asc a b = 1 := by
        simp [rowCompare, haf, hb]
      rw [hc] at h
      norm_num at h
    have h2 : ∀ a b : RunResultDetail,
        decide (rowCompare v asc a b ≤ 0) = false →
          (a.verified = true → b.verified = true) := by
      intro a b h ha
      by_contra hbn
      have hbf : b.verified = false := by
        cases hbv : b.verified
        · rfl
        · exact absurd hbv hbn
      have hc : rowCompare v asc a b = -1 := by
        simp [rowCompare, ha, hbf]
      rw [hc] at h
      norm_num at h
    have hTrans : ∀ a b c : RunResultDetail,
        (b.verified = true → a.verified = true) →
        (c.verified = true → b.verified = true) →
        (c.verified = true → a.verified = true) :=
      fun _ _ _ hab hbc hc => hab (hbc hc)
    unfold rankingSort
    induction rs with
    | nil => simp [stableSort]
    | cons r rs ih =>
        exact insertSorted_pairwise _ _ hTrans h1 h2 r (stableSort _ rs) ih
  · rfl

theorem findEntry_append_single_ne (lb : List RunResultDetail)
    (x : RunResultDetail) (n : String) (hx : ¬ x.name = n) :
    findEntry (lb ++ [x]) n = findEntry lb n := by
  induction lb with
  | nil => simp [findEntry, List.find?, hx]
  | cons e rest ih =>
      by_cases hen : e.name = n
      · simp [findEntry, List.find?, hen]
      · simpa [findEntry, List.find?, hen] using ih

theorem findEntry_updateLeaderboard_ne (lb : List RunResultDetail)
    (r : RunResultDetail) (w : Int) (n : String) (h : r.name ≠ n) :
    findEntry (updateLeaderboard lb r w) n = findEntry lb n := by
  induction lb with
  | nil => simp [updateLeaderboard, findEntry, List.find?, newEntry, h]
  | cons e rest ih =>
      by_cases hname : e.name = r.name
      · by_cases hguard : e.lastVerifiedWave = some w
        · have hrw : updateLeaderboard (e :: rest) r w = e :: rest := by
            simp [updateLeaderboard, hname, hguard]
          rw [hrw]
        · have hrw : updateLeaderboard (e :: rest) r w = mergeEntry e r w :: rest := by
            simp [updateLeaderboard, hname, hguard]
          rw [hrw]
          have hmn : (mergeEntry e r w).name = e.name := rfl
          have hen : ¬ e.name = n := fun hc => h (hname ▸ hc)
          simp [findEntry, List.find?, hmn, hen]
      · have hrw : updateLeaderboard (e :: rest) r w = e :: updateLeaderboard rest r w := by
          simp [updateLeaderboard, hname]
        rw [hrw]
        by_cases hen : e.name = n
        · simp [findEntry, List.find?, hen]
        · simpa [findEntry, List.find?, hen] using ih

theorem findEntry_ensureEntry_ne (lb : List RunResultDetail) (p : ModelProposal)
    (n : String) (h : fullNameOf p ≠ n) :
    findEntry (ensureEntry lb p) n = findEntry lb n := by
  unfold ensureEntry
  by_cases hany : lb.any (fun x => x.name = fullNameOf p)
  · simp [hany]
  · have hpn : ¬ (placeholderEntry p).name = n := h
    simp only [hany, Bool.false_eq_true, if_false]
    exact findEntry_append_single_ne lb (placeholderEntry p) n hpn

theorem runRoundAux_disq_invariant (env : RoundEnv) (lb0 : List RunResultDetail)
    (n : String) (e : RunResultDetail)
    (hdq : findEntry lb0 n = some e) (hver : e.verified = false)
    (ps : List ModelProposal)
    (hnames : ∀ p ∈ ps,
      (classifyRun env.parse env.timeoutSecs p (env.outcome p)).result.name
        = fullNameOf p) :
    ∀ (flags : List Bool) (lb : List RunResultDetail) (ex : List String),
      findEntry (runRoundAux env lb0 ps flags lb ex).1 n = findEntry lb n
      ∧ (n ∉ ex → n ∉ (runRoundAux env lb0 ps flags lb ex).2) := by
  induction ps with
  | nil => intro flags lb ex; exact ⟨rfl, fun h => h⟩
  | cons p ps ih =>
      intro flags lb ex
      have hnames2 : ∀ q ∈ ps,
          (classifyRun env.parse env.timeoutSecs q (env.outcome q)).result.name
            = fullNameOf q := fun q hq => hnames q (by simp [hq])
      cases hflag : flags.headD true with
      | false =>
          have hrw : runRoundAux env lb0 (p :: ps) flags lb ex = (lb, ex) := by
            simp only [runRoundAux, hflag]
            simp
          rw [hrw]
          exact ⟨rfl, fun h => h⟩
      | true =>
          cases hd : isDisqualifiedIn lb0 (fullNameOf p) with
          | true =>
              have hrw : runRoundAux env lb0 (p :: ps) flags lb ex =
                  runRoundAux env lb0 ps flags.tail lb ex := by
                simp only [runRoundAux, hflag, hd]
                simp
              rw [hrw]
              exact ih hnames2 flags.tail lb ex
          | false =>
              have hne : fullNameOf p ≠ n := by
                intro heq
                rw [heq] at hd
                rw [isDisqualifiedIn, hdq] at hd
                simp [hver] at hd
              have hrname :
                  (classifyRun env.parse env.timeoutSecs p (env.outcome p)).result.name
                    ≠ n := by
                rw [hnames p (by simp)]
                exact hne
              have hrw : runRoundAux env lb0 (p :: ps) flags lb ex =
                  runRoundAux env lb0 ps flags.tail
                    (updateLeaderboard (ensureEntry lb p)
                      (classifyRun env.parse env.timeoutSecs p (env.outcome p)).result
                      env.wave)
                    (ex ++ [fullNameOf p]) := by
                simp only [runRoundAux, hflag, hd]
                simp
              rw [hrw]
              obtain ⟨h1, h2⟩ := ih hnames2 flags.tail
                (updateLeaderboard (ensureEntry lb p)
                  (classifyRun env.parse env.timeoutSecs p (env.outcome p)).result
                  env.wave)
                (ex ++ [fullNameOf p])
              refine ⟨?_, ?_⟩
              · rw [h1, findEntry_updateLeaderboard_ne _ _ _ _ hrname,
                  findEntry_ensureEntry_ne _ _ _ hne]
              · intro hex
                apply h2
                intro hmem
                rcases List.mem_append.mp hmem with hc | hc
                · exact hex hc
                · exact hne (List.mem_singleton.mp hc).symm

theorem runRoundAux_exec_mono (env : RoundEnv) (lb0 : List RunResultDetail) :
    ∀ (ps : List ModelProposal) (flags : List Bool) (lb : List RunResultDetail)
      (ex : List String) (m : String),
      m ∈ ex → m ∈ (runRoundAux env lb0 ps flags lb ex).2 := by
  intro ps
  induction ps with
  | nil => intro flags lb ex m hm; exact hm
  | cons p ps ih =>
      intro flags lb ex m hm
      cases hflag : flags.headD true with
      | false =>
          have hrw : runRoundAux env lb0 (p :: ps) flags lb ex = (lb, ex) := by
            simp only [runRoundAux, hflag]
            simp
          rw [hrw]
          exact hm
      | true =>
          cases hd : isDisqualifiedIn lb0 (fullNameOf p) with
          | true =>
              have hrw : runRoundAux env lb0 (p :: ps) flags lb ex =
                  runRoundAux env lb0 ps flags.tail lb ex := by
                simp only [runRoundAux, hflag, hd]
                simp
              rw [hrw]
              exact ih flags.tail lb ex m hm
          | false =>
              have hrw : runRoundAux env lb0 (p :: ps) flags lb ex =
                  runRoundAux env lb0 ps flags.tail
                    (updateLeaderboard (ensureEntry lb p)
                      (classifyRun env.parse env.timeoutSecs p (env.outcome p)).result
                      env.wave)
                    (ex ++ [fullNameOf p]) := by
                simp only [runRoundAux, hflag, hd]
                simp
              rw [hrw]
              exact ih flags.tail _ _ m (by simp [hm])

/-- C3: permanent disqualification.  If the leaderboard holds an entry
named `n` with `verified = false`, then over any sequence of rounds
(each merging results whose names match the executing proposal's full
name, as the sandbox protocol produces) the entry is never touched again
— the final leaderboard still holds the identical entry (in particular
its `completedWaves` never changes and it stays disqualified) — and no
round ever executes a proposal with that full name. -/
theorem C3_permanent_disqualification (lb : List RunResultDetail) (n : String)
    (e : RunResultDetail)
    (specs : List (RoundEnv × List ModelProposal × List Bool))
    (hfound : findEntry lb n = some e)
    (hver : e.verified = false)
    (hnames : ∀ s ∈ specs, ∀ p ∈ s.2.1,
      (classifyRun s.1.parse s.1.timeoutSecs p (s.1.outcome p)).result.name
        = fullNameOf p) :
    findEntry (runRounds lb specs).1 n = some e
    ∧ ∀ ex ∈ (runRounds lb specs).2, n ∉ ex := by
  induction specs generalizing lb with
  | nil =>
      refine ⟨hfound, ?_⟩
      intro ex hex
      simp [runRounds] at hex
  | cons s rest ih =>
      have hs : ∀ p ∈ s.2.1,
          (classifyRun s.1.parse s.1.timeoutSecs p (s.1.outcome p)).result.name
            = fullNameOf p := hnames s (by simp)
      have hsf : ∀ p ∈ s.2.1.filter (fun q => q.active),
          (classifyRun s.1.parse s.1.timeoutSecs p (s.1.outcome p)).result.name
            = fullNameOf p := fun p hp => hs p (List.mem_of_mem_filter hp)
      obtain ⟨hinv1, hinv2⟩ :=
        runRoundAux_disq_invariant s.1 lb n e hfound hver
          (s.2.1.filter (fun q => q.active)) hsf s.2.2 lb []
      have hround1 : findEntry (runRound s.1 lb s.2.1 s.2.2).1 n = some e := by
        rw [runRound, hinv1, hfound]
      have hround2 : n ∉ (runRound s.1 lb s.2.1 s.2.2).2 :=
        hinv2 (by simp)
      have hrest : ∀ s2 ∈ rest, ∀ p ∈ s2.2.1,
          (classifyRun s2.1.parse s2.1.timeoutSecs p (s2.1.outcome p)).result.name
            = fullNameOf p := fun s2 hs2 => hnames s2 (by simp [hs2])
      obtain ⟨ih1, ih2⟩ := ih (runRound s.1 lb s.2.1 s.2.2).1 hround1 hrest
      refine ⟨?_, ?_⟩
      · simpa [runRounds] using ih1
      · intro ex hex
        simp only [runRounds] at hex
        rcases List.mem_cons.mp hex with rfl | hex
        · exact hround2
        · exact ih2 ex hex

/-- Witness for C3: one concrete round over a proposal named like the
disqualified entry plus another proposal; the entry survives unchanged
and `"M - A"` is never executed. -/
theorem C3_permanent_disqualification_witness :
    findEntry
        (runRounds [disqEntry]
          [(sampleEnv, [sampleProposal, otherProposal], [])]).1 "M - A"
      = some disqEntry
    ∧ ∀ ex ∈ (runRounds [disqEntry]
        [(sampleEnv, [sampleProposal, otherProposal], [])]).2, "M - A" ∉ ex :=
  C3_permanent_disqualification [disqEntry] "M - A" disqEntry
    [(sampleEnv, [sampleProposal, otherProposal], [])]
    rfl rfl
    (by
      intro s hs p hp
      have hs2 : s = (sampleEnv, [sampleProposal, otherProposal], ([] : List Bool)) := by
        simpa using hs
      subst hs2
      have hp2 : p = sampleProposal ∨ p = otherProposal := by simpa using hp
      rcases hp2 with rfl | rfl
      · rfl
      · rfl)

theorem findEntry_isSome_of_any (lb : List RunResultDetail) (n : String)
    (h : lb.any (fun x => x.name = n) = true) :
    ∃ y, findEntry lb n = some y := by
  induction lb with
  | nil => simp at h
  | cons e rest ih =>
      by_cases hen : e.name = n
      · exact ⟨e, by simp [findEntry, List.find?, hen]⟩
      · have h2 : rest.any (fun x => x.name = n) = true := by
          simpa [hen] using h
        obtain ⟨y, hy⟩ := ih h2
        exact ⟨y, by simpa [findEntry, List.find?, hen] using hy⟩

theorem findEntry_append_self (lb : List RunResultDetail) (x : RunResultDetail) :
    ∃ y, findEntry (lb ++ [x]) x.name = some y := by
  induction lb with
  | nil => exact ⟨x, by simp [findEntry, List.find?]⟩
  | cons e rest ih =>
      by_cases hen : e.name = x.name
      · exact ⟨e, by simp [findEntry, List.find?, hen]⟩
      · obtain ⟨y, hy⟩ := ih
        exact ⟨y, by simpa [findEntry, List.find?, hen] using hy⟩

/-- C9: placeholder insertion.  Before executing a proposal with no
leaderboard entry for its full name, the sequencer (a) appends the
optimistic placeholder `{verified: true, score: 0, batches: 0, time: 0,
completedWaves: 0, lastVerifiedWave: -1}`, so (b) after the insertion an
entry with the proposal's full name always exists; and a proposal
without an entry (c) is not treated as disqualified and (d) is executed
by the round loop (when the sequencer is still playing). -/
theorem C9_placeholder_insertion (lb lb0 : List RunResultDetail)
    (p : ModelProposal) (env : RoundEnv) (ps : List ModelProposal)
    (flags : List Bool) (ex : List String) :
    (lb.any (fun x => x.name = fullNameOf p) = false →
      ensureEntry lb p =
        lb ++ [{ name := fullNameOf p, model := p.modelName
                 algorithm := p.algorithmName, version := ""
                 batches := 0, time := 0, verified := true, score := 0
                 completedWaves := 0, lastVerifiedWave := some (-1)
                 error := none }])
    ∧ (∃ x, findEntry (ensureEntry lb p) (fullNameOf p) = some x)
    ∧ (findEntry lb0 (fullNameOf p) = none →
        isDisqualifiedIn lb0 (fullNameOf p) = false)
    ∧ (findEntry lb0 (fullNameOf p) = none → flags.headD true = true →
        fullNameOf p ∈ (runRoundAux env lb0 (p :: ps) flags lb ex).2) := by
  have hdisq : findEntry lb0 (fullNameOf p) = none →
      isDisqualifiedIn lb0 (fullNameOf p) = false := by
    intro h
    simp [isDisqualifiedIn, h]
  refine ⟨?_, ?_, hdisq, ?_⟩
  · intro h
    simp [ensureEntry, h, placeholderEntry]
  · by_cases hany : lb.any (fun x => x.name = fullNameOf p) = true
    · rw [ensureEntry, if_pos hany]
      exact findEntry_isSome_of_any lb (fullNameOf p) hany
    · have hany2 : ¬ (lb.any (fun x => x.name = fullNameOf p) = true) := hany
      rw [ensureEntry, if_neg hany2]
      exact findEntry_append_self lb (placeholderEntry p)
  · intro h hflag
    have hd : isDisqualifiedIn lb0 (fullNameOf p) = false := hdisq h
    have hrw : runRoundAux env lb0 (p :: ps) flags lb ex =
        runRoundAux env lb0 ps flags.tail
          (updateLeaderboard (ensureEntry lb p)
            (classifyRun env.parse env.timeoutSecs p (env.outcome p)).result
            env.wave)
          (ex ++ [fullNameOf p]) := by
      simp only [runRoundAux, hflag, hd]
      simp
    rw [hrw]
    exact runRoundAux_exec_mono env lb0 ps flags.tail _ _ (fullNameOf p) (by simp)

/-- Witness for C9 at the empty leaderboard and a concrete proposal. -/
theorem C9_placeholder_insertion_witness :
    (ensureEntry [] sampleProposal =
        [] ++ [{ name := fullNameOf sampleProposal
                 model := sampleProposal.modelName
                 algorithm := sampleProposal.algorithmName, version := ""
                 batches := 0, time := 0, verified := true, score := 0
                 completedWaves := 0, lastVerifiedWave := some (-1)
                 error := none }])
    ∧ (∃ x, findEntry (ensureEntry [] sampleProposal)
        (fullNameOf sampleProposal) = some x)
    ∧ isDisqualifiedIn [] (fullNameOf sampleProposal) = false
    ∧ fullNameOf sampleProposal ∈
        (runRoundAux sampleEnv [] [sampleProposal] [] [] []).2 :=
  ⟨(C9_placeholder_insertion [] [] sampleProposal sampleEnv [] [] []).1 rfl,
   (C9_placeholder_insertion [] [] sampleProposal sampleEnv [] [] []).2.1,
   (C9_placeholder_insertion [] [] sampleProposal sampleEnv [] [] []).2.2.1 rfl,
   (C9_placeholder_insertion [] [] sampleProposal sampleEnv [] [] []).2.2.2 rfl rfl⟩
